import Mathlib

/-!
Verification development for the model-configuration indexing core of a
Triton-style inference backend (source: src/backend_model.cc).

The C++ class BackendModel is embedded shallowly:

* The parsed JSON model configuration is a `JsonVal` tree.  The JSON
  document object model (TritonJson) is an external collaborator of the
  repository; its typed accessors are modelled from the specification
  (missing key yields the default, wrong type is an error, the member
  `name` of an input is required).
* Host calls made during construction (model config retrieval and parse,
  name, version, repository descriptor, the opaque batch-input and
  batch-output descriptor parsers) are modelled by a `HostModel` record
  carrying their results; the construction logic consuming them is
  translated line by line from the source.
* `std::set` and `std::map` are modelled by lists with guarded insertion
  (`emplace` never overwrites an existing key); descriptor pointers are
  modelled by the descriptor's index in the parsed descriptor sequence.
* The lazily memoized batching-support query is a state machine over the
  two cache fields; the host responses to successive
  TRITONSERVER_ServerModelBatchProperties queries are a stream indexed by
  the number of queries issued so far, and the query count is carried
  alongside as an observable.
-/

/-- Error codes of TRITONSERVER_Error used by the translated code. -/
inductive ErrorCode where
  | unsupported
  | invalidArg
  | notFound
  deriving DecidableEq

/-- A TRITONSERVER_Error value: a code and a human-readable message. -/
structure TError where
  code : ErrorCode
  msg : String
  deriving DecidableEq

/-- A parsed JSON document (the model configuration tree). -/
inductive JsonVal where
  | jbool : Bool → JsonVal
  | jint : Int → JsonVal
  | jstr : String → JsonVal
  | jarr : List JsonVal → JsonVal
  | jobj : List (String × JsonVal) → JsonVal

/-- First-match association lookup (std::map find / rapidjson FindMember;
keys inserted by the guarded emplace below are unique, so first match is
the match). -/
def assocFind {α : Type} (key : String) : List (String × α) → Option α
  | [] => none
  | (k, v) :: rest => if key = k then some v else assocFind key rest

/-- Modelled from the spec: TritonJson Value.Find — look a member up in an
object; on a non-object there is no member to find. -/
def findMember (v : JsonVal) (key : String) : Option JsonVal :=
  match v with
  | .jobj members => assocFind key members
  | _ => none

/-- Modelled from the spec: TritonJson Value.AsBool — a typed accessor,
wrong type is an error. -/
def asBool : JsonVal → Except TError Bool
  | .jbool b => .ok b
  | _ => .error ⟨.invalidArg, "attempt to access JSON non-boolean"⟩

/-- Modelled from the spec: typed integer member accessor with default —
missing key yields the default, wrong type is an error. -/
def memberAsIntD (v : JsonVal) (key : String) (dflt : Int) : Except TError Int :=
  match findMember v key with
  | none => .ok dflt
  | some (.jint n) => .ok n
  | some _ => .error ⟨.invalidArg, "attempt to access JSON non-integer"⟩

/-- Modelled from the spec: typed boolean member accessor with default —
missing key yields the default, wrong type is an error. -/
def memberAsBoolD (v : JsonVal) (key : String) (dflt : Bool) : Except TError Bool :=
  match findMember v key with
  | none => .ok dflt
  | some (.jbool b) => .ok b
  | some _ => .error ⟨.invalidArg, "attempt to access JSON non-boolean"⟩

/-- Modelled from the spec: typed array member accessor — missing key
yields the empty default, wrong type is an error. -/
def memberAsArrayD (v : JsonVal) (key : String) : Except TError (List JsonVal) :=
  match findMember v key with
  | none => .ok []
  | some (.jarr l) => .ok l
  | some _ => .error ⟨.invalidArg, "attempt to access JSON non-array"⟩

/-- Modelled from the spec: required typed string member accessor —
missing key or wrong type is an error (the `name` of an input is
required; on a non-object element the required lookup fails, subsuming
IndexAsObject's failure). -/
def memberAsString (v : JsonVal) (key : String) : Except TError String :=
  match findMember v key with
  | some (.jstr s) => .ok s
  | some _ => .error ⟨.invalidArg, "attempt to access JSON non-string"⟩
  | none => .error ⟨.notFound, "attempt to access non-existing member " ++ key⟩

/-- TRITONBACKEND_ArtifactType: the filesystem kind against which the
constructor checks, and any other artifact kind. -/
inductive ArtifactType where
  | filesystem
  | other
  deriving DecidableEq

/-- Results of the host calls and opaque descriptor parsers consumed by
the BackendModel constructor.  `configResult` collapses
TRITONBACKEND_ModelConfig, TRITONSERVER_MessageSerializeToJson and the
TritonJson parse into the parsed document or the first error of the
three; `batchOutputsResult` is the output of the opaque
BatchOutput::ParseFromModelConfig, each descriptor given by its list of
target names; `batchInputsResult` likewise stands for the opaque
BatchInput::ParseFromModelConfig whose output the claims never inspect. -/
structure HostModel where
  configResult : Except TError JsonVal
  modelName : String
  modelVersion : Nat
  artifactType : ArtifactType
  repositoryPath : String
  batchInputsResult : Except TError Unit
  batchOutputsResult : Except TError (List (List String))

/-- The BackendModel object state.  Opaque host handles (model, server,
memory manager) carry no observable structure and are omitted;
`batchOutputMap` maps a target name to the index of its descriptor in
`batchOutputs` (the embedding of the `const BatchOutput*` stored by the
source).  `supportsBatchingSet` embeds supports_batching_initialized_. -/
structure BackendModel where
  name : String
  version : Nat
  repositoryPath : String
  maxBatchSize : Int
  enablePinnedInput : Bool
  enablePinnedOutput : Bool
  raggedInputs : List String
  optionalInputs : List String
  batchOutputs : List (List String)
  batchOutputMap : List (String × Nat)
  supportsBatchingSet : Bool
  supportsBatching : Bool

/-- std::set emplace: add the element only when it is not yet present. -/
def setInsert (s : List String) (x : String) : List String :=
  if x ∈ s then s else s ++ [x]

/-- std::map emplace: insert the pair only when the key is not yet
present (emplace never overwrites an existing key). -/
def emplaceAssoc (m : List (String × Nat)) (key : String) (v : Nat) : List (String × Nat) :=
  match assocFind key m with
  | some _ => m
  | none => m ++ [(key, v)]

/-- Inner loop of the map construction: emplace every target name of the
descriptor with index `idx`. -/
def emplaceTargets (targets : List String) (idx : Nat) (m : List (String × Nat)) :
    List (String × Nat) :=
  match targets with
  | [] => m
  | t :: rest => emplaceTargets rest idx (emplaceAssoc m t idx)

/-- Outer loop of the map construction over the descriptor sequence. -/
def buildMapAux (descs : List (List String)) (idx : Nat) (m : List (String × Nat)) :
    List (String × Nat) :=
  match descs with
  | [] => m
  | t :: rest => buildMapAux rest (idx + 1) (emplaceTargets t idx m)

/-- batch_output_map_ as built by the constructor: for each descriptor in
order, emplace each of its target names. -/
def buildBatchOutputMap (descs : List (List String)) : List (String × Nat) :=
  buildMapAux descs 0 []

/-- The error thrown for a non-filesystem repository artifact type. -/
def unsupportedRepoErr (modelName : String) : TError :=
  ⟨.unsupported, "unsupported repository artifact type for model \x27" ++ modelName ++ "\x27"⟩

/-- The error thrown for an optional input when the backend model does
not allow optional inputs. -/
def unsupportedOptionalInputErr (ioName : String) : TError :=
  ⟨.invalidArg,
    "\x27optional\x27 is set to true for input \x27" ++ ioName ++
      "\x27 while the backend model doesn\x27t support optional input"⟩

/-- Reading of max_batch_size (source line 66-69). -/
def parseMaxBatchSize (config : JsonVal) : Except TError Int :=
  memberAsIntD config "max_batch_size" 0

/-- Reading of the pinned-memory flags (source lines 92-107): both
default false; each is overwritten from
optimization.{input,output}_pinned_memory.enable when the nested section
is present. -/
def parsePinned (config : JsonVal) : Except TError (Bool × Bool) :=
  match findMember config "optimization" with
  | none => .ok (false, false)
  | some opt =>
    Except.bind
      (match findMember opt "input_pinned_memory" with
        | some pm => memberAsBoolD pm "enable" false
        | none => .ok false)
      fun epi =>
    Except.bind
      (match findMember opt "output_pinned_memory" with
        | some pm => memberAsBoolD pm "enable" false
        | none => .ok false)
      fun epo => .ok (epi, epo)

/-- Required input name (source lines 124-125). -/
def nameOf (io : JsonVal) : Except TError String :=
  memberAsString io "name"

/-- allow_ragged_batch of one input (source lines 127-131): absent means
false, present must be a boolean. -/
def raggedOf (io : JsonVal) : Except TError Bool :=
  match findMember io "allow_ragged_batch" with
  | some v => asBool v
  | none => .ok false

/-- optional of one input (source lines 135-138): absent means false,
present must be a boolean. -/
def optionalOf (io : JsonVal) : Except TError Bool :=
  match findMember io "optional" with
  | some v => asBool v
  | none => .ok false

/-- One iteration of the input loop (source lines 121-149): read the
name, the ragged flag and the optional flag in that order; an optional
input on a backend that does not allow optional inputs is an error
naming the input. -/
def parseInput (allowOptional : Bool) (io : JsonVal) :
    Except TError (String × Bool × Bool) :=
  Except.bind (nameOf io) fun nm =>
  Except.bind (raggedOf io) fun rg =>
  Except.bind (optionalOf io) fun op =>
  if op = true ∧ allowOptional = false then .error (unsupportedOptionalInputErr nm)
  else .ok (nm, rg, op)

/-- The input loop threading the ragged and optional name sets. -/
def processInputs (allowOptional : Bool) :
    List JsonVal → List String → List String → Except TError (List String × List String)
  | [], ragged, opt => .ok (ragged, opt)
  | io :: rest, ragged, opt =>
    Except.bind (parseInput allowOptional io) fun t =>
      processInputs allowOptional rest
        (if t.2.1 then setInsert ragged t.1 else ragged)
        (if t.2.2 then setInsert opt t.1 else opt)

/-- Assembly of the fully constructed object from the validated parts;
the two cache fields start out false as in the initializer list. -/
def mkBackendModel (host : HostModel) (mbs : Int) (pin : Bool × Bool)
    (descs : List (List String)) (ro : List String × List String) : BackendModel :=
  { name := host.modelName
    version := host.modelVersion
    repositoryPath := host.repositoryPath
    maxBatchSize := mbs
    enablePinnedInput := pin.1
    enablePinnedOutput := pin.2
    raggedInputs := ro.1
    optionalInputs := ro.2
    batchOutputs := descs
    batchOutputMap := buildBatchOutputMap descs
    supportsBatchingSet := false
    supportsBatching := false }

/-- BackendModel::BackendModel (source lines 36-151): the construction
steps in source order; any failing step aborts with its error. -/
def backendModelInit (host : HostModel) (allowOptional : Bool) :
    Except TError BackendModel :=
  Except.bind host.configResult fun config =>
  Except.bind (parseMaxBatchSize config) fun mbs =>
  if host.artifactType = .filesystem then
    Except.bind (parsePinned config) fun pin =>
    Except.bind host.batchInputsResult fun _ =>
    Except.bind host.batchOutputsResult fun descs =>
    Except.bind (memberAsArrayD config "input") fun inputs =>
    Except.bind (processInputs allowOptional inputs [] []) fun ro =>
    .ok (mkBackendModel host mbs pin descs ro)
  else .error (unsupportedRepoErr host.modelName)

/-- The FIRST_DIM bit of the batch-properties bitmask.  Modelled from the
spec: the host returns a bitmask whose FIRST_DIM bit indicates
first-dimension batching. -/
def batchFirstDimFlag : Nat := 2

/-- BackendModel::SupportsFirstDimBatching (source lines 153-169) as a
state machine: `host` is the stream of host responses to successive
TRITONSERVER_ServerModelBatchProperties queries, `queries` counts the
queries issued so far.  An initialized cache answers without a query; a
failed query leaves the cache untouched; a successful query decodes the
FIRST_DIM bit and fills the cache. -/
def SupportsFirstDimBatching (host : Nat → Except TError Nat) (m : BackendModel)
    (queries : Nat) : Except TError Bool × BackendModel × Nat :=
  if m.supportsBatchingSet then (.ok m.supportsBatching, m, queries)
  else
    match host queries with
    | .error e => (.error e, m, queries + 1)
    | .ok flags =>
      let s : Bool := decide ((flags &&& batchFirstDimFlag) ≠ 0)
      (.ok s, { m with supportsBatching := s, supportsBatchingSet := true }, queries + 1)

/-- BackendModel::FindBatchOutput (source lines 171-176): map lookup,
null pointer embedded as `none`, a descriptor pointer as the index of
the descriptor. -/
def FindBatchOutput (m : BackendModel) (outputName : String) : Option Nat :=
  assocFind outputName m.batchOutputMap

/-- A run of sequential calls to SupportsFirstDimBatching on one
instance, returning the list of call results, the final object and the
final query count. -/
def runCalls (host : Nat → Except TError Nat) :
    Nat → BackendModel × Nat → List (Except TError Bool) × BackendModel × Nat
  | 0, st => ([], st)
  | n + 1, st =>
    let c := SupportsFirstDimBatching host st.1 st.2
    let r := runCalls host n (c.2.1, c.2.2)
    (c.1 :: r.1, r.2)

/-- Number of successful results in a run. -/
def countOkResults : List (Except TError Bool) → Nat
  | [] => 0
  | .ok _ :: rs => countOkResults rs + 1
  | .error _ :: rs => countOkResults rs

/-- Index of the first descriptor whose target names contain `nm`. -/
def firstTargetIdx (nm : String) : List (List String) → Option Nat
  | [] => none
  | t :: rest => if nm ∈ t then some 0 else (firstTargetIdx nm rest).map (· + 1)

/-- Left-biased choice on options (the composition law of guarded
emplace). -/
def optOr {α : Type} : Option α → Option α → Option α
  | some x, _ => some x
  | none, b => b

/-- Executable list-prefix test over characters. -/
def isPrefixL : List Char → List Char → Bool
  | [], _ => true
  | _ :: _, [] => false
  | a :: xs, b :: ys => a = b && isPrefixL xs ys

/-- Executable substring occurrence test over characters. -/
def occursIn (sub : List Char) : List Char → Bool
  | [] => isPrefixL sub []
  | c :: t => isPrefixL sub (c :: t) || occursIn sub t

/-- `strContains s sub` holds when `sub` occurs contiguously in `s`
(the error message names the string `sub`). -/
def strContains (s sub : String) : Prop :=
  occursIn sub.data s.data = true

instance (s sub : String) : Decidable (strContains s sub) :=
  inferInstanceAs (Decidable (occursIn sub.data s.data = true))

/-- A default object used only to give `getOk` a total type; never the
result of a successful construction in any statement below. -/
def emptyModel : BackendModel :=
  { name := "", version := 0, repositoryPath := "", maxBatchSize := 0
    enablePinnedInput := false, enablePinnedOutput := false
    raggedInputs := [], optionalInputs := [], batchOutputs := []
    batchOutputMap := [], supportsBatchingSet := false, supportsBatching := false }

/-- The object of a successful construction (total projection). -/
def getOk : Except TError BackendModel → BackendModel
  | .ok m => m
  | .error _ => emptyModel

/-- Input entry named IN0 marked optional. -/
def ioOptA : JsonVal := .jobj [("name", .jstr "IN0"), ("optional", .jbool true)]

/-- Input entry named IN1 marked optional. -/
def ioOptB : JsonVal := .jobj [("name", .jstr "IN1"), ("optional", .jbool true)]

/-- Host with two optional inputs IN0 and IN1. -/
def hostC1 : HostModel :=
  { configResult := .ok (.jobj [("input", .jarr [ioOptA, ioOptB])])
    modelName := "model1", modelVersion := 1, artifactType := .filesystem
    repositoryPath := "/repo/model1", batchInputsResult := .ok ()
    batchOutputsResult := .ok [] }

/-- Input entry named OPT0 marked optional. -/
def ioOpt0 : JsonVal := .jobj [("name", .jstr "OPT0"), ("optional", .jbool true)]

/-- Host with the single optional input OPT0. -/
def hostW1 : HostModel :=
  { configResult := .ok (.jobj [("input", .jarr [ioOpt0])])
    modelName := "model1w", modelVersion := 1, artifactType := .filesystem
    repositoryPath := "/repo/model1w", batchInputsResult := .ok ()
    batchOutputsResult := .ok [] }

/-- Host whose configuration has no max_batch_size key. -/
def hostW2a : HostModel :=
  { configResult := .ok (.jobj [("input", .jarr [])])
    modelName := "model2", modelVersion := 1, artifactType := .filesystem
    repositoryPath := "/repo/model2", batchInputsResult := .ok ()
    batchOutputsResult := .ok [] }

/-- Host whose configuration sets max_batch_size to 8. -/
def hostW2b : HostModel :=
  { configResult := .ok (.jobj [("max_batch_size", .jint 8), ("input", .jarr [])])
    modelName := "model2b", modelVersion := 1, artifactType := .filesystem
    repositoryPath := "/repo/model2b", batchInputsResult := .ok ()
    batchOutputsResult := .ok [] }

/-- Host with two batch-output descriptors with disjoint target names. -/
def hostW3 : HostModel :=
  { configResult := .ok (.jobj [("input", .jarr [])])
    modelName := "model3", modelVersion := 1, artifactType := .filesystem
    repositoryPath := "/repo/model3", batchInputsResult := .ok ()
    batchOutputsResult := .ok [["A", "B"], ["C"]] }

/-- Host whose repository artifact kind is not filesystem. -/
def hostC5bad : HostModel :=
  { configResult := .ok (.jobj [("input", .jarr [])])
    modelName := "model5", modelVersion := 1, artifactType := .other
    repositoryPath := "/repo/model5", batchInputsResult := .ok ()
    batchOutputsResult := .ok [] }

/-- Host whose repository artifact kind is filesystem. -/
def hostC5good : HostModel :=
  { configResult := .ok (.jobj [("input", .jarr [])])
    modelName := "model5g", modelVersion := 1, artifactType := .filesystem
    repositoryPath := "/repo/model5g", batchInputsResult := .ok ()
    batchOutputsResult := .ok [] }

/-- Input entry named X with allow_ragged_batch true. -/
def ioRagX : JsonVal := .jobj [("name", .jstr "X"), ("allow_ragged_batch", .jbool true)]

/-- Input entry named X with no allow_ragged_batch member. -/
def ioPlainX : JsonVal := .jobj [("name", .jstr "X")]

/-- Host with two input entries that share the name X, only the first of
which allows ragged batches. -/
def hostC6 : HostModel :=
  { configResult := .ok (.jobj [("input", .jarr [ioRagX, ioPlainX])])
    modelName := "model6", modelVersion := 1, artifactType := .filesystem
    repositoryPath := "/repo/model6", batchInputsResult := .ok ()
    batchOutputsResult := .ok [] }

/-- Input entry named IN0 with allow_ragged_batch true. -/
def ioRag0 : JsonVal := .jobj [("name", .jstr "IN0"), ("allow_ragged_batch", .jbool true)]

/-- Host with one ragged input IN0. -/
def hostW6 : HostModel :=
  { configResult := .ok (.jobj [("input", .jarr [ioRag0])])
    modelName := "model6w", modelVersion := 1, artifactType := .filesystem
    repositoryPath := "/repo/model6w", batchInputsResult := .ok ()
    batchOutputsResult := .ok [] }

/-- Host with two batch-output descriptors both claiming the target X. -/
def hostW10 : HostModel :=
  { configResult := .ok (.jobj [("input", .jarr [])])
    modelName := "model10", modelVersion := 1, artifactType := .filesystem
    repositoryPath := "/repo/model10", batchInputsResult := .ok ()
    batchOutputsResult := .ok [["X"], ["X", "Y"]] }

/-- A plain host used to construct a fresh object for the query claims. -/
def hostBase : HostModel :=
  { configResult := .ok (.jobj [("input", .jarr [])])
    modelName := "modelb", modelVersion := 1, artifactType := .filesystem
    repositoryPath := "/repo/modelb", batchInputsResult := .ok ()
    batchOutputsResult := .ok [] }

/-- A freshly constructed object with an uninitialized batching cache. -/
def baseModel : BackendModel := getOk (backendModelInit hostBase true)

/-- Batch-properties host whose first query fails and whose later
queries succeed with the FIRST_DIM bit set. -/
def hostRetry : Nat → Except TError Nat := fun k =>
  if k = 0 then .error ⟨.invalidArg, "transient host failure"⟩ else .ok 2

/-- Batch-properties host that always succeeds with the FIRST_DIM bit
set. -/
def hostSteady : Nat → Except TError Nat := fun _ => .ok 2

/-- Batch-properties host that always fails. -/
def hostFailing : Nat → Except TError Nat := fun _ =>
  .error ⟨.invalidArg, "host unavailable"⟩

theorem exbind_ok {α β : Type} (a : α) (f : α → Except TError β) :
    Except.bind (Except.ok a) f = f a := rfl

theorem exbind_error {α β : Type} (e : TError) (f : α → Except TError β) :
    Except.bind (Except.error e : Except TError α) f = (Except.error e : Except TError β) := rfl

theorem optOr_none_left {α : Type} (b : Option α) : optOr none b = b := rfl

theorem optOr_some_left {α : Type} (x : α) (b : Option α) : optOr (some x) b = some x := rfl

theorem optOr_none_right {α : Type} (a : Option α) : optOr a none = a := by
  cases a <;> rfl

theorem optOr_assoc {α : Type} (a b c : Option α) :
    optOr (optOr a b) c = optOr a (optOr b c) := by
  cases a <;> rfl

theorem assocFind_append {α : Type} (key : String) (l₁ l₂ : List (String × α)) :
    assocFind key (l₁ ++ l₂) = optOr (assocFind key l₁) (assocFind key l₂) := by
  induction l₁ with
  | nil => rfl
  | cons p rest ih =>
    cases p with
    | mk k v =>
      by_cases h : key = k
      · simp [assocFind, h, optOr]
      · simp [assocFind, h, ih]

theorem assocFind_emplaceAssoc (m : List (String × Nat)) (k k' : String) (v : Nat) :
    assocFind k' (emplaceAssoc m k v) =
      optOr (assocFind k' m) (if k' = k then some v else none) := by
  unfold emplaceAssoc
  cases h : assocFind k m with
  | some w =>
    by_cases hk : k' = k
    · subst hk; rw [h, optOr_some_left]
    · simp [hk, optOr_none_right]
  | none =>
    rw [assocFind_append]
    simp [assocFind]

theorem assocFind_emplaceTargets (targets : List String) (idx : Nat)
    (m : List (String × Nat)) (k : String) :
    assocFind k (emplaceTargets targets idx m) =
      optOr (assocFind k m) (if k ∈ targets then some idx else none) := by
  induction targets generalizing m with
  | nil => simp [emplaceTargets, optOr_none_right]
  | cons t rest ih =>
    rw [emplaceTargets, ih, assocFind_emplaceAssoc, optOr_assoc]
    by_cases h1 : k = t
    · simp [h1, optOr_some_left]
    · simp [h1, List.mem_cons, optOr_none_left]

theorem assocFind_buildMapAux (descs : List (List String)) (idx : Nat)
    (m : List (String × Nat)) (k : String) :
    assocFind k (buildMapAux descs idx m) =
      optOr (assocFind k m) ((firstTargetIdx k descs).map (· + idx)) := by
  induction descs generalizing idx m with
  | nil => simp [buildMapAux, firstTargetIdx, optOr_none_right]
  | cons t rest ih =>
    rw [buildMapAux, ih, assocFind_emplaceTargets, optOr_assoc, firstTargetIdx]
    by_cases h : k ∈ t
    · simp [h, optOr]
    · cases hr : firstTargetIdx k rest with
      | none => simp [h, hr, optOr_none_left]
      | some j => simp [h, hr, optOr_none_left, Nat.add_assoc, Nat.add_comm 1 idx]

theorem assocFind_buildBatchOutputMap (descs : List (List String)) (k : String) :
    assocFind k (buildBatchOutputMap descs) = firstTargetIdx k descs := by
  rw [buildBatchOutputMap, assocFind_buildMapAux]
  cases h : firstTargetIdx k descs with
  | none => rfl
  | some j => simp [optOr, assocFind]

theorem firstTargetIdx_of_min (descs : List (List String)) (nm : String) (i : Nat)
    (ti : List String) (hget : descs[i]? = some ti) (hmem : nm ∈ ti)
    (hmin : ∀ k tk, k < i → descs[k]? = some tk → nm ∉ tk) :
    firstTargetIdx nm descs = some i := by
  induction descs generalizing i with
  | nil => simp at hget
  | cons t rest ih =>
    cases i with
    | zero =>
      simp at hget
      subst hget
      simp [firstTargetIdx, hmem]
    | succ i' =>
      have hnt : nm ∉ t := hmin 0 t (Nat.succ_pos i') (by simp)
      simp at hget
      rw [firstTargetIdx, if_neg hnt,
        ih i' hget (fun k tk hk hg => hmin (k + 1) tk (Nat.succ_lt_succ hk) (by simpa using hg))]
      rfl

theorem firstTargetIdx_of_absent (descs : List (List String)) (nm : String)
    (h : ∀ t ∈ descs, nm ∉ t) : firstTargetIdx nm descs = none := by
  induction descs with
  | nil => rfl
  | cons t rest ih =>
    rw [firstTargetIdx, if_neg (h t (by simp)),
      ih (fun t' ht' => h t' (List.mem_cons_of_mem _ ht'))]
    rfl

theorem isPrefixL_append_self (l q : List Char) : isPrefixL l (l ++ q) = true := by
  induction l with
  | nil => rfl
  | cons a xs ih => simp [isPrefixL, ih]

theorem occursIn_of_prefixL (sub s : List Char) (h : isPrefixL sub s = true) :
    occursIn sub s = true := by
  cases s with
  | nil =>
    cases sub with
    | nil => rfl
    | cons a xs => simp [isPrefixL] at h
  | cons c t => simp [occursIn, h]

theorem occursIn_sandwich (sub p q : List Char) :
    occursIn sub (p ++ sub ++ q) = true := by
  induction p with
  | nil => exact occursIn_of_prefixL sub (sub ++ q) (isPrefixL_append_self sub q)
  | cons c p' ih =>
    have ih' : occursIn sub (p' ++ (sub ++ q)) = true := by
      rw [← List.append_assoc]
      exact ih
    have hsh : (c :: p') ++ sub ++ q = c :: (p' ++ (sub ++ q)) := by simp
    rw [hsh]
    simp [occursIn, ih']

theorem strData_append (a b : String) : (a ++ b).data = a.data ++ b.data := by
  cases a
  cases b
  rfl

theorem strContains_sandwich (p mid q : String) : strContains (p ++ mid ++ q) mid := by
  unfold strContains
  rw [strData_append, strData_append]
  exact occursIn_sandwich mid.data p.data q.data

theorem mem_setInsert (s : List String) (x y : String) :
    y ∈ setInsert s x ↔ y ∈ s ∨ y = x := by
  unfold setInsert
  by_cases h : x ∈ s
  · simp [h]
    intro hy
    subst hy
    exact h
  · simp [h, List.mem_append]

theorem optionalOf_true_iff (io : JsonVal) :
    optionalOf io = .ok true ↔ findMember io "optional" = some (.jbool true) := by
  unfold optionalOf
  cases h : findMember io "optional" with
  | none => simp
  | some v => cases v <;> simp [asBool]

theorem raggedOf_true_iff (io : JsonVal) :
    raggedOf io = .ok true ↔ findMember io "allow_ragged_batch" = some (.jbool true) := by
  unfold raggedOf
  cases h : findMember io "allow_ragged_batch" with
  | none => simp
  | some v => cases v <;> simp [asBool]

theorem parseInput_ok_elim (ao : Bool) (io : JsonVal) (nm : String) (rg op : Bool)
    (h : parseInput ao io = .ok (nm, rg, op)) :
    nameOf io = .ok nm ∧ raggedOf io = .ok rg ∧ optionalOf io = .ok op ∧
      (op = false ∨ ao = true) := by
  unfold parseInput at h
  cases hn : nameOf io with
  | error e => rw [hn, exbind_error] at h; exact Except.noConfusion h
  | ok nm' =>
    rw [hn, exbind_ok] at h
    cases hr : raggedOf io with
    | error e => rw [hr, exbind_error] at h; exact Except.noConfusion h
    | ok rg' =>
      rw [hr, exbind_ok] at h
      cases ho : optionalOf io with
      | error e => rw [ho, exbind_error] at h; exact Except.noConfusion h
      | ok op' =>
        rw [ho, exbind_ok] at h
        by_cases hcond : op' = true ∧ ao = false
        · rw [if_pos hcond] at h; exact Except.noConfusion h
        · rw [if_neg hcond] at h
          injection h with h
          obtain ⟨e1, e2, e3⟩ : nm' = nm ∧ rg' = rg ∧ op' = op := by
            simpa using h
          rw [e3] at hcond
          refine ⟨by rw [e1], by rw [e2], by rw [e3], ?_⟩
          by_cases hop : op = true
          · cases hao : ao with
            | true => exact Or.inr rfl
            | false => exact absurd ⟨hop, hao⟩ hcond
          · exact Or.inl (by simpa using hop)

theorem parseInput_ok_intro (ao : Bool) (io : JsonVal) (nm : String) (rg op : Bool)
    (hn : nameOf io = .ok nm) (hr : raggedOf io = .ok rg) (ho : optionalOf io = .ok op)
    (hc : op = false ∨ ao = true) :
    parseInput ao io = .ok (nm, rg, op) := by
  unfold parseInput
  rw [hn, exbind_ok, hr, exbind_ok, ho, exbind_ok, if_neg]
  rintro ⟨h1, h2⟩
  rcases hc with hc | hc
  · rw [hc] at h1; exact Bool.noConfusion h1
  · rw [hc] at h2; exact Bool.noConfusion h2

theorem parseInput_optional_error (io : JsonVal) (nm : String) (rg : Bool)
    (hn : nameOf io = .ok nm) (hr : raggedOf io = .ok rg)
    (ho : optionalOf io = .ok true) :
    parseInput false io = .error (unsupportedOptionalInputErr nm) := by
  unfold parseInput
  rw [hn, exbind_ok, hr, exbind_ok, ho, exbind_ok, if_pos ⟨rfl, rfl⟩]

theorem processInputs_all_ok (ao : Bool) (ios : List JsonVal) (r o : List String)
    (p : List String × List String) (h : processInputs ao ios r o = .ok p) :
    ∀ io ∈ ios, ∃ nm rg op, parseInput ao io = .ok (nm, rg, op) := by
  induction ios generalizing r o with
  | nil => intro io hio; exact absurd hio (List.not_mem_nil io)
  | cons io0 rest ih =>
    rw [processInputs] at h
    cases hp : parseInput ao io0 with
    | error e => rw [hp, exbind_error] at h; exact Except.noConfusion h
    | ok t =>
      rw [hp, exbind_ok] at h
      intro io hio
      rcases List.mem_cons.mp hio with hh | hio'
      · subst hh; exact ⟨t.1, t.2.1, t.2.2, hp⟩
      · exact ih _ _ h io hio'

theorem processInputs_mem_ragged (ao : Bool) (ios : List JsonVal) (rs os : List String)
    (x : String) :
    ∀ r o : List String, processInputs ao ios r o = .ok (rs, os) →
      (x ∈ rs ↔ x ∈ r ∨ ∃ io ∈ ios, ∃ op, parseInput ao io = .ok (x, true, op)) := by
  induction ios with
  | nil =>
    intro r o h
    rw [processInputs] at h
    injection h with h
    obtain ⟨h1, h2⟩ : r = rs ∧ o = os := by simpa using h
    subst h1
    simp
  | cons io0 rest ih =>
    intro r o h
    rw [processInputs] at h
    cases hp : parseInput ao io0 with
    | error e => rw [hp, exbind_error] at h; exact Except.noConfusion h
    | ok t =>
      rw [hp, exbind_ok] at h
      rw [ih _ _ h]
      obtain ⟨nm, rg, op⟩ := t
      have hhead : ∀ op', parseInput ao io0 = .ok (x, true, op') ↔
          (nm = x ∧ rg = true ∧ op = op') := by
        intro op'
        rw [hp]
        constructor
        · intro he
          injection he with he
          simpa using he
        · rintro ⟨e1, e2, e3⟩
          rw [e1, e2, e3]
      have hexcons : (∃ io ∈ io0 :: rest, ∃ op', parseInput ao io = .ok (x, true, op')) ↔
          ((nm = x ∧ rg = true) ∨ ∃ io ∈ rest, ∃ op', parseInput ao io = .ok (x, true, op')) := by
        simp only [List.mem_cons]
        constructor
        · rintro ⟨io, hio | hio, op', hpe⟩
          · subst hio
            have hres := (hhead op').mp hpe
            exact Or.inl ⟨hres.1, hres.2.1⟩
          · exact Or.inr ⟨io, hio, op', hpe⟩
        · rintro (⟨e1, e2⟩ | ⟨io, hio, op', hpe⟩)
          · exact ⟨io0, Or.inl rfl, op, (hhead op).mpr ⟨e1, e2, rfl⟩⟩
          · exact ⟨io, Or.inr hio, op', hpe⟩
      rw [hexcons]
      cases rg with
      | true =>
        rw [if_pos rfl, mem_setInsert]
        constructor
        · rintro ((hx | hx) | hA)
          · exact Or.inl hx
          · exact Or.inr (Or.inl ⟨hx.symm, rfl⟩)
          · exact Or.inr (Or.inr hA)
        · rintro (hx | (⟨e1, _⟩ | hA))
          · exact Or.inl (Or.inl hx)
          · exact Or.inl (Or.inr e1.symm)
          · exact Or.inr hA
      | false =>
        rw [if_neg (by simp)]
        constructor
        · rintro (hx | hA)
          · exact Or.inl hx
          · exact Or.inr (Or.inr hA)
        · rintro (hx | (⟨_, e2⟩ | hA))
          · exact Or.inl hx
          · exact Bool.noConfusion e2
          · exact Or.inr hA

theorem processInputs_mem_optional (ao : Bool) (ios : List JsonVal) (rs os : List String)
    (x : String) :
    ∀ r o : List String, processInputs ao ios r o = .ok (rs, os) →
      (x ∈ os ↔ x ∈ o ∨ ∃ io ∈ ios, ∃ rg, parseInput ao io = .ok (x, rg, true)) := by
  induction ios with
  | nil =>
    intro r o h
    rw [processInputs] at h
    injection h with h
    obtain ⟨h1, h2⟩ : r = rs ∧ o = os := by simpa using h
    subst h2
    simp
  | cons io0 rest ih =>
    intro r o h
    rw [processInputs] at h
    cases hp : parseInput ao io0 with
    | error e => rw [hp, exbind_error] at h; exact Except.noConfusion h
    | ok t =>
      rw [hp, exbind_ok] at h
      rw [ih _ _ h]
      obtain ⟨nm, rg, op⟩ := t
      have hhead : ∀ rg', parseInput ao io0 = .ok (x, rg', true) ↔
          (nm = x ∧ rg = rg' ∧ op = true) := by
        intro rg'
        rw [hp]
        constructor
        · intro he
          injection he with he
          simpa using he
        · rintro ⟨e1, e2, e3⟩
          rw [e1, e2, e3]
      have hexcons : (∃ io ∈ io0 :: rest, ∃ rg', parseInput ao io = .ok (x, rg', true)) ↔
          ((nm = x ∧ op = true) ∨ ∃ io ∈ rest, ∃ rg', parseInput ao io = .ok (x, rg', true)) := by
        simp only [List.mem_cons]
        constructor
        · rintro ⟨io, hio | hio, rg', hpe⟩
          · subst hio
            have hres := (hhead rg').mp hpe
            exact Or.inl ⟨hres.1, hres.2.2⟩
          · exact Or.inr ⟨io, hio, rg', hpe⟩
        · rintro (⟨e1, e2⟩ | ⟨io, hio, rg', hpe⟩)
          · exact ⟨io0, Or.inl rfl, rg, (hhead rg).mpr ⟨e1, rfl, e2⟩⟩
          · exact ⟨io, Or.inr hio, rg', hpe⟩
      rw [hexcons]
      cases op with
      | true =>
        rw [if_pos rfl, mem_setInsert]
        constructor
        · rintro ((hx | hx) | hA)
          · exact Or.inl hx
          · exact Or.inr (Or.inl ⟨hx.symm, rfl⟩)
          · exact Or.inr (Or.inr hA)
        · rintro (hx | (⟨e1, _⟩ | hA))
          · exact Or.inl (Or.inl hx)
          · exact Or.inl (Or.inr e1.symm)
          · exact Or.inr hA
      | false =>
        rw [if_neg (by simp)]
        constructor
        · rintro (hx | hA)
          · exact Or.inl hx
          · exact Or.inr (Or.inr hA)
        · rintro (hx | (⟨_, e2⟩ | hA))
          · exact Or.inl hx
          · exact Bool.noConfusion e2
          · exact Or.inr hA

theorem processInputs_error_append (ao : Bool) (pre : List JsonVal) (io : JsonVal)
    (rest : List JsonVal) (e : TError)
    (hpre : ∀ io' ∈ pre, ∃ t, parseInput ao io' = .ok t)
    (hio : parseInput ao io = .error e) :
    ∀ r o : List String, processInputs ao (pre ++ io :: rest) r o = .error e := by
  induction pre with
  | nil =>
    intro r o
    rw [List.nil_append, processInputs, hio, exbind_error]
  | cons p pre' ih =>
    intro r o
    rw [List.cons_append, processInputs]
    obtain ⟨t, hpt⟩ := hpre p (by simp)
    rw [hpt, exbind_ok]
    exact ih (fun io' h' => hpre io' (List.mem_cons_of_mem _ h')) _ _

theorem init_ok_decomp (host : HostModel) (ao : Bool) (m : BackendModel)
    (h : backendModelInit host ao = .ok m) :
    ∃ config mbs pin descs inputs ro,
      host.configResult = .ok config ∧
      parseMaxBatchSize config = .ok mbs ∧
      host.artifactType = .filesystem ∧
      parsePinned config = .ok pin ∧
      host.batchInputsResult = .ok () ∧
      host.batchOutputsResult = .ok descs ∧
      memberAsArrayD config "input" = .ok inputs ∧
      processInputs ao inputs [] [] = .ok ro ∧
      m = mkBackendModel host mbs pin descs ro := by
  unfold backendModelInit at h
  cases hc : host.configResult with
  | error e => rw [hc, exbind_error] at h; exact Except.noConfusion h
  | ok config =>
    rw [hc, exbind_ok] at h
    cases hm : parseMaxBatchSize config with
    | error e => rw [hm, exbind_error] at h; exact Except.noConfusion h
    | ok mbs =>
      rw [hm, exbind_ok] at h
      by_cases hfs : host.artifactType = .filesystem
      case neg => rw [if_neg hfs] at h; exact Except.noConfusion h
      rw [if_pos hfs] at h
      cases hp : parsePinned config with
      | error e => rw [hp, exbind_error] at h; exact Except.noConfusion h
      | ok pin =>
        rw [hp, exbind_ok] at h
        cases hbi : host.batchInputsResult with
        | error e => rw [hbi, exbind_error] at h; exact Except.noConfusion h
        | ok u =>
          rw [hbi, exbind_ok] at h
          cases hbo : host.batchOutputsResult with
          | error e => rw [hbo, exbind_error] at h; exact Except.noConfusion h
          | ok descs =>
            rw [hbo, exbind_ok] at h
            cases hia : memberAsArrayD config "input" with
            | error e => rw [hia, exbind_error] at h; exact Except.noConfusion h
            | ok inputs =>
              rw [hia, exbind_ok] at h
              cases hpi : processInputs ao inputs [] [] with
              | error e => rw [hpi, exbind_error] at h; exact Except.noConfusion h
              | ok ro =>
                rw [hpi, exbind_ok] at h
                injection h with h
                exact ⟨config, mbs, pin, descs, inputs, ro, rfl, hm, hfs, hp,
                  (by cases u; rfl), rfl, hia, hpi, h.symm⟩

theorem init_error_repo (host : HostModel) (ao : Bool) (config : JsonVal) (mbs : Int)
    (hc : host.configResult = .ok config) (hm : parseMaxBatchSize config = .ok mbs)
    (hfs : host.artifactType ≠ .filesystem) :
    backendModelInit host ao = .error (unsupportedRepoErr host.modelName) := by
  unfold backendModelInit
  rw [hc, exbind_ok, hm, exbind_ok, if_neg hfs]

theorem init_error_inputs (host : HostModel) (ao : Bool) (config : JsonVal) (mbs : Int)
    (pin : Bool × Bool) (descs : List (List String)) (inputs : List JsonVal) (e : TError)
    (hc : host.configResult = .ok config) (hm : parseMaxBatchSize config = .ok mbs)
    (hfs : host.artifactType = .filesystem) (hp : parsePinned config = .ok pin)
    (hbi : host.batchInputsResult = .ok ())
    (hbo : host.batchOutputsResult = .ok descs)
    (hia : memberAsArrayD config "input" = .ok inputs)
    (hpi : processInputs ao inputs [] [] = .error e) :
    backendModelInit host ao = .error e := by
  unfold backendModelInit
  rw [hc, exbind_ok, hm, exbind_ok, if_pos hfs, hp, exbind_ok, hbi, exbind_ok,
    hbo, exbind_ok, hia, exbind_ok, hpi, exbind_error]

theorem runCalls_frozen (host : Nat → Except TError Nat) (n : Nat) (m : BackendModel)
    (q : Nat) (hset : m.supportsBatchingSet = true) :
    runCalls host n (m, q) = (List.replicate n (.ok m.supportsBatching), m, q) := by
  induction n with
  | zero => rfl
  | succ k ih =>
    rw [runCalls]
    simp only [SupportsFirstDimBatching, hset, if_true]
    rw [ih]
    rfl

theorem countOkResults_replicate_ok (n : Nat) (b : Bool) :
    countOkResults (List.replicate n (.ok b)) = n := by
  induction n with
  | zero => rfl
  | succ k ih => rw [List.replicate_succ, countOkResults, ih]

theorem SFDB_cached (host : Nat → Except TError Nat) (m : BackendModel) (q : Nat)
    (h : m.supportsBatchingSet = true) :
    SupportsFirstDimBatching host m q = (.ok m.supportsBatching, m, q) := by
  unfold SupportsFirstDimBatching
  rw [if_pos h]

theorem SFDB_error (host : Nat → Except TError Nat) (m : BackendModel) (q : Nat)
    (e : TError) (h : m.supportsBatchingSet = false) (hh : host q = .error e) :
    SupportsFirstDimBatching host m q = (.error e, m, q + 1) := by
  unfold SupportsFirstDimBatching
  rw [if_neg (by simp [h]), hh]

theorem SFDB_query_ok (host : Nat → Except TError Nat) (m : BackendModel) (q : Nat)
    (flags : Nat) (h : m.supportsBatchingSet = false) (hh : host q = .ok flags) :
    SupportsFirstDimBatching host m q =
      (.ok (decide ((flags &&& batchFirstDimFlag) ≠ 0)),
        { m with supportsBatching := decide ((flags &&& batchFirstDimFlag) ≠ 0),
                 supportsBatchingSet := true }, q + 1) := by
  unfold SupportsFirstDimBatching
  rw [if_neg (by simp [h]), hh]

theorem runCalls_succ (host : Nat → Except TError Nat) (n : Nat)
    (st : BackendModel × Nat) :
    runCalls host (n + 1) st =
      ((SupportsFirstDimBatching host st.1 st.2).1 ::
        (runCalls host n (SupportsFirstDimBatching host st.1 st.2).2).1,
       (runCalls host n (SupportsFirstDimBatching host st.1 st.2).2).2) := rfl

theorem runCalls_query_bound (host : Nat → Except TError Nat) (n : Nat) :
    ∀ (m : BackendModel) (q : Nat),
      (runCalls host n (m, q)).2.2 + countOkResults (runCalls host n (m, q)).1 ≤
        q + n + 1 := by
  induction n with
  | zero =>
    intro m q
    simp [runCalls, countOkResults]
  | succ k ih =>
    intro m q
    rw [runCalls_succ]
    cases hset : m.supportsBatchingSet with
    | true =>
      rw [SFDB_cached host m q hset]
      have hb := ih m q
      simp only [countOkResults]
      omega
    | false =>
      cases hh : host q with
      | error e =>
        rw [SFDB_error host m q e hset hh]
        have hb := ih m (q + 1)
        simp only [countOkResults]
        omega
      | ok flags =>
        rw [SFDB_query_ok host m q flags hset hh]
        rw [runCalls_frozen host k _ (q + 1) rfl]
        simp only [countOkResults, countOkResults_replicate_ok]
        omega

theorem runCalls_ok_agree (host : Nat → Except TError Nat) (n : Nat) :
    ∀ (m : BackendModel) (q : Nat) (a b : Bool),
      Except.ok a ∈ (runCalls host n (m, q)).1 →
      Except.ok b ∈ (runCalls host n (m, q)).1 → a = b := by
  induction n with
  | zero =>
    intro m q a b ha _
    simp [runCalls] at ha
  | succ k ih =>
    intro m q a b ha hb
    cases hset : m.supportsBatchingSet with
    | true =>
      rw [runCalls_frozen host (k + 1) m q hset] at ha hb
      have ea := List.eq_of_mem_replicate ha
      have eb := List.eq_of_mem_replicate hb
      injection ea.symm with ea'
      injection eb.symm with eb'
      rw [← ea', ← eb']
    | false =>
      rw [runCalls_succ] at ha hb
      cases hh : host q with
      | error e =>
        rw [SFDB_error host m q e hset hh] at ha hb
        rcases List.mem_cons.mp ha with ha0 | ha'
        · exact Except.noConfusion ha0
        rcases List.mem_cons.mp hb with hb0 | hb'
        · exact Except.noConfusion hb0
        exact ih m (q + 1) a b ha' hb'
      | ok flags =>
        rw [SFDB_query_ok host m q flags hset hh] at ha hb
        rw [runCalls_frozen host k _ (q + 1) rfl] at ha hb
        have hs : ∀ c : Bool,
            Except.ok c ∈
              (Except.ok (decide ((flags &&& batchFirstDimFlag) ≠ 0)) ::
                List.replicate k
                  (Except.ok (decide ((flags &&& batchFirstDimFlag) ≠ 0)))
                : List (Except TError Bool)) →
            c = decide ((flags &&& batchFirstDimFlag) ≠ 0) := by
          intro c hc
          rcases List.mem_cons.mp hc with hc0 | hc'
          · injection hc0
          · have := List.eq_of_mem_replicate hc'
            injection this
        rw [hs a ha, hs b hb]

/-- C2: for every valid configuration document, after successful
construction maxBatchSize equals the document's max_batch_size integer
value; when the key is absent the max_batch_size step succeeds with the
default 0 and the constructed object records 0. -/
theorem maxBatchSize_from_config (host : HostModel) (ao : Bool) (config : JsonVal)
    (m : BackendModel) (hc : host.configResult = .ok config)
    (h : backendModelInit host ao = .ok m) :
    (∀ v : Int, findMember config "max_batch_size" = some (.jint v) → m.maxBatchSize = v) ∧
    (findMember config "max_batch_size" = none →
      parseMaxBatchSize config = .ok 0 ∧ m.maxBatchSize = 0) := by
  obtain ⟨config', mbs, pin, descs, inputs, ro, hc', hm, hfs, hp, hbi, hbo, hia, hpi, hmEq⟩ :=
    init_ok_decomp host ao m h
  rw [hc] at hc'
  injection hc' with hc'
  subst hc'
  subst hmEq
  constructor
  · intro v hv
    have hv' : parseMaxBatchSize config = .ok v := by
      unfold parseMaxBatchSize memberAsIntD
      rw [hv]
    rw [hv'] at hm
    injection hm with hm
    exact hm.symm
  · intro hnone
    have h0 : parseMaxBatchSize config = .ok 0 := by
      unfold parseMaxBatchSize memberAsIntD
      rw [hnone]
    refine ⟨h0, ?_⟩
    rw [h0] at hm
    injection hm with hm
    exact hm.symm

/-- C2 witness: a configuration without max_batch_size constructs
successfully with maxBatchSize 0; with max_batch_size 8 the object
records 8. -/
theorem maxBatchSize_from_config_witness :
    findMember (.jobj [("input", .jarr [])]) "max_batch_size" = none ∧
    (getOk (backendModelInit hostW2a true)).maxBatchSize = 0 ∧
    (getOk (backendModelInit hostW2b true)).maxBatchSize = 8 := by
  refine ⟨rfl, ?_, ?_⟩
  · exact ((maxBatchSize_from_config hostW2a true (.jobj [("input", .jarr [])])
      (getOk (backendModelInit hostW2a true)) rfl rfl).2 rfl).2
  · exact (maxBatchSize_from_config hostW2b true
      (.jobj [("max_batch_size", .jint 8), ("input", .jarr [])])
      (getOk (backendModelInit hostW2b true)) rfl rfl).1 8 rfl

/-- C5: a non-filesystem repository artifact kind makes construction
fail with an error whose message contains the model name, and no object
is produced; with the filesystem kind, a successful construction stores
the returned repository path. -/
theorem repository_artifact_check (host : HostModel) (ao : Bool) (config : JsonVal)
    (mbs : Int) (hc : host.configResult = .ok config)
    (hm : parseMaxBatchSize config = .ok mbs) :
    (host.artifactType ≠ .filesystem →
      backendModelInit host ao = .error (unsupportedRepoErr host.modelName) ∧
      strContains (unsupportedRepoErr host.modelName).msg host.modelName ∧
      ∀ m : BackendModel, backendModelInit host ao ≠ .ok m) ∧
    (∀ m : BackendModel, backendModelInit host ao = .ok m →
      m.repositoryPath = host.repositoryPath) := by
  constructor
  · intro hfs
    have herr := init_error_repo host ao config mbs hc hm hfs
    refine ⟨herr, ?_, ?_⟩
    · exact strContains_sandwich "unsupported repository artifact type for model \x27"
        host.modelName "\x27"
    · intro m hok
      rw [herr] at hok
      exact Except.noConfusion hok
  · intro m hok
    obtain ⟨config', mbs', pin, descs, inputs, ro, hc', hm', hfs, hp, hbi, hbo, hia, hpi, hmEq⟩ :=
      init_ok_decomp host ao m hok
    subst hmEq
    rfl

/-- C5 witness: a host reporting a non-filesystem artifact kind fails
with the expected message naming model5; a filesystem host constructs
with the returned path stored. -/
theorem repository_artifact_check_witness :
    backendModelInit hostC5bad true = .error (unsupportedRepoErr "model5") ∧
    strContains (unsupportedRepoErr "model5").msg "model5" ∧
    (getOk (backendModelInit hostC5good true)).repositoryPath = "/repo/model5g" := by
  have h1 := (repository_artifact_check hostC5bad true (.jobj [("input", .jarr [])]) 0
    rfl rfl).1 (fun hfs => ArtifactType.noConfusion hfs)
  refine ⟨h1.1, h1.2.1, ?_⟩
  exact (repository_artifact_check hostC5good true (.jobj [("input", .jarr [])]) 0
    rfl rfl).2 (getOk (backendModelInit hostC5good true)) rfl

/-- C8: SupportsFirstDimBatching changes none of the declarative fields
of the object (it touches only the two cache fields), and FindBatchOutput
answers identically before and after any such call. -/
theorem queries_preserve_declarative_fields (host : Nat → Except TError Nat)
    (m : BackendModel) (q : Nat) :
    ((SupportsFirstDimBatching host m q).2.1.name = m.name ∧
     (SupportsFirstDimBatching host m q).2.1.version = m.version ∧
     (SupportsFirstDimBatching host m q).2.1.repositoryPath = m.repositoryPath ∧
     (SupportsFirstDimBatching host m q).2.1.maxBatchSize = m.maxBatchSize ∧
     (SupportsFirstDimBatching host m q).2.1.enablePinnedInput = m.enablePinnedInput ∧
     (SupportsFirstDimBatching host m q).2.1.enablePinnedOutput = m.enablePinnedOutput ∧
     (SupportsFirstDimBatching host m q).2.1.raggedInputs = m.raggedInputs ∧
     (SupportsFirstDimBatching host m q).2.1.optionalInputs = m.optionalInputs ∧
     (SupportsFirstDimBatching host m q).2.1.batchOutputs = m.batchOutputs ∧
     (SupportsFirstDimBatching host m q).2.1.batchOutputMap = m.batchOutputMap) ∧
    (∀ s : String,
      FindBatchOutput (SupportsFirstDimBatching host m q).2.1 s = FindBatchOutput m s) := by
  cases hset : m.supportsBatchingSet with
  | true =>
    rw [SFDB_cached host m q hset]
    exact ⟨⟨rfl, rfl, rfl, rfl, rfl, rfl, rfl, rfl, rfl, rfl⟩, fun s => rfl⟩
  | false =>
    cases hh : host q with
    | error e =>
      rw [SFDB_error host m q e hset hh]
      exact ⟨⟨rfl, rfl, rfl, rfl, rfl, rfl, rfl, rfl, rfl, rfl⟩, fun s => rfl⟩
    | ok flags =>
      rw [SFDB_query_ok host m q flags hset hh]
      exact ⟨⟨rfl, rfl, rfl, rfl, rfl, rfl, rfl, rfl, rfl, rfl⟩, fun s => rfl⟩

/-- C7: when the host query fails, SupportsFirstDimBatching returns that
error, leaves the object (and in particular the cache) unchanged, issues
exactly one query, and a subsequent call issues another query. -/
theorem sfdb_error_no_cache (host : Nat → Except TError Nat) (m : BackendModel)
    (q : Nat) (e : TError) (hset : m.supportsBatchingSet = false)
    (hh : host q = .error e) :
    SupportsFirstDimBatching host m q = (.error e, m, q + 1) ∧
    ∀ host2 : Nat → Except TError Nat,
      (SupportsFirstDimBatching host2 m (q + 1)).2.2 = q + 1 + 1 := by
  refine ⟨SFDB_error host m q e hset hh, ?_⟩
  intro host2
  cases hh2 : host2 (q + 1) with
  | error e2 => rw [SFDB_error host2 m (q + 1) e2 hset hh2]
  | ok flags => rw [SFDB_query_ok host2 m (q + 1) flags hset hh2]

/-- C7 witness: on a fresh object a failing host query propagates the
error with the object unchanged, and the next call queries again. -/
theorem sfdb_error_no_cache_witness :
    SupportsFirstDimBatching hostFailing baseModel 0 =
      (.error ⟨.invalidArg, "host unavailable"⟩, baseModel, 1) ∧
    (SupportsFirstDimBatching hostSteady baseModel 1).2.2 = 2 := by
  have h := sfdb_error_no_cache hostFailing baseModel 0
    ⟨.invalidArg, "host unavailable"⟩ rfl rfl
  exact ⟨h.1, h.2 hostSteady⟩

/-- C4 (amended): across any number of sequential calls on one fresh
instance, at most one successful host query is issued (a failed query
may be retried by a later call), and all successful calls return one and
the same boolean value. -/
theorem sfdb_single_successful_query (host : Nat → Except TError Nat) (n : Nat)
    (m : BackendModel) (_hset : m.supportsBatchingSet = false) :
    (runCalls host n (m, 0)).2.2 + countOkResults (runCalls host n (m, 0)).1 ≤ n + 1 ∧
    ∀ a b : Bool, Except.ok a ∈ (runCalls host n (m, 0)).1 →
      Except.ok b ∈ (runCalls host n (m, 0)).1 → a = b := by
  refine ⟨?_, fun a b => runCalls_ok_agree host n m 0 a b⟩
  have hb := runCalls_query_bound host n m 0
  omega

/-- C4 witness: three calls against an always-succeeding host issue at
most one query beyond the successful results. -/
theorem sfdb_single_successful_query_witness :
    (runCalls hostSteady 3 (baseModel, 0)).2.2 +
      countOkResults (runCalls hostSteady 3 (baseModel, 0)).1 ≤ 3 + 1 :=
  (sfdb_single_successful_query hostSteady 3 baseModel rfl).1

/-- C4 counterexample: when the first host query fails, two sequential
calls issue two host queries, refuting the claim that at most one
underlying host query is issued across any number of calls. -/
theorem sfdb_two_queries_cex :
    (runCalls hostRetry 2 (baseModel, 0)).2.2 = 2 ∧
    ¬ (runCalls hostRetry 2 (baseModel, 0)).2.2 ≤ 1 := by
  constructor
  · rfl
  · decide

/-- C3: in a successfully constructed object whose batch-output
descriptors have pairwise disjoint target-name lists, FindBatchOutput
maps every target name to its descriptor and every unregistered name to
none. -/
theorem findBatchOutput_unique_targets (host : HostModel) (ao : Bool) (m : BackendModel)
    (descs : List (List String))
    (hbo : host.batchOutputsResult = .ok descs)
    (h : backendModelInit host ao = .ok m)
    (huniq : List.Pairwise (fun t1 t2 => ∀ nm ∈ t1, nm ∉ t2) descs) :
    (∀ (i : Nat) (ti : List String), descs[i]? = some ti →
      ∀ nm ∈ ti, FindBatchOutput m nm = some i) ∧
    (∀ nm : String, (∀ t ∈ descs, nm ∉ t) → FindBatchOutput m nm = none) := by
  obtain ⟨config, mbs, pin, descs', inputs, ro, hc, hm, hfs, hp, hbi, hbo', hia, hpi, hmEq⟩ :=
    init_ok_decomp host ao m h
  rw [hbo] at hbo'
  injection hbo' with hbo'
  subst hbo'
  subst hmEq
  have hfind : ∀ nm, FindBatchOutput (mkBackendModel host mbs pin descs ro) nm =
      firstTargetIdx nm descs := fun nm => assocFind_buildBatchOutputMap descs nm
  constructor
  · intro i ti hget nm hnm
    rw [hfind]
    apply firstTargetIdx_of_min descs nm i ti hget hnm
    intro k tk hk hgetk hmem
    obtain ⟨hkl, hke⟩ := List.getElem?_eq_some.mp hgetk
    obtain ⟨hil, hie⟩ := List.getElem?_eq_some.mp hget
    have hrel := List.pairwise_iff_getElem.mp huniq k i hkl hil hk
    rw [hke, hie] at hrel
    exact hrel nm hmem hnm
  · intro nm habs
    rw [hfind]
    exact firstTargetIdx_of_absent descs nm habs

/-- C3 witness: with descriptors A,B and C, the names A, B map to the
first descriptor, C to the second, and an unknown name to none. -/
theorem findBatchOutput_unique_targets_witness :
    FindBatchOutput (getOk (backendModelInit hostW3 true)) "B" = some 0 ∧
    FindBatchOutput (getOk (backendModelInit hostW3 true)) "C" = some 1 ∧
    FindBatchOutput (getOk (backendModelInit hostW3 true)) "Z" = none := by
  have h := findBatchOutput_unique_targets hostW3 true
    (getOk (backendModelInit hostW3 true)) [["A", "B"], ["C"]] rfl rfl (by decide)
  exact ⟨h.1 0 ["A", "B"] rfl "B" (by decide), h.1 1 ["C"] rfl "C" (by decide),
    h.2 "Z" (by decide)⟩

/-- C10: when a target name is claimed by two descriptors, construction
succeeds and FindBatchOutput returns the earliest descriptor in the
parsed sequence (guarded emplace keeps the first insertion). -/
theorem findBatchOutput_first_descriptor_wins (host : HostModel) (ao : Bool)
    (m : BackendModel) (descs : List (List String)) (i j : Nat)
    (ti tj : List String) (nm : String)
    (hbo : host.batchOutputsResult = .ok descs)
    (h : backendModelInit host ao = .ok m)
    (hij : i < j)
    (hti : descs[i]? = some ti) (_htj : descs[j]? = some tj)
    (hmi : nm ∈ ti) (_hmj : nm ∈ tj)
    (hmin : ∀ (k : Nat) (tk : List String), k < i → descs[k]? = some tk → nm ∉ tk) :
    FindBatchOutput m nm = some i ∧ i ≠ j := by
  obtain ⟨config, mbs, pin, descs', inputs, ro, hc, hm, hfs, hp, hbi, hbo', hia, hpi, hmEq⟩ :=
    init_ok_decomp host ao m h
  rw [hbo] at hbo'
  injection hbo' with hbo'
  subst hbo'
  subst hmEq
  refine ⟨?_, Nat.ne_of_lt hij⟩
  have hfind : FindBatchOutput (mkBackendModel host mbs pin descs ro) nm =
      firstTargetIdx nm descs := assocFind_buildBatchOutputMap descs nm
  rw [hfind]
  exact firstTargetIdx_of_min descs nm i ti hti hmi hmin

/-- C10 witness: with descriptors X and X,Y the duplicated target X
constructs successfully and resolves to the first descriptor. -/
theorem findBatchOutput_first_descriptor_wins_witness :
    backendModelInit hostW10 true = .ok (getOk (backendModelInit hostW10 true)) ∧
    FindBatchOutput (getOk (backendModelInit hostW10 true)) "X" = some 0 := by
  refine ⟨rfl, ?_⟩
  exact (findBatchOutput_first_descriptor_wins hostW10 true
    (getOk (backendModelInit hostW10 true)) [["X"], ["X", "Y"]] 0 1 ["X"] ["X", "Y"] "X"
    rfl rfl (by decide) rfl rfl (by decide) (by decide)
    (fun k tk hk _ => absurd hk (Nat.not_lt_zero k))).1

/-- C6 counterexample: two input entries share the name X; only the
first sets allow_ragged_batch, yet construction succeeds and X is in
raggedInputs, so the second entry violates the per-entry only-if
direction of the claim. -/
theorem raggedInputs_duplicate_name_cex :
    backendModelInit hostC6 true = .ok (getOk (backendModelInit hostC6 true)) ∧
    memberAsString ioPlainX "name" = .ok "X" ∧
    findMember ioPlainX "allow_ragged_batch" = none ∧
    "X" ∈ (getOk (backendModelInit hostC6 true)).raggedInputs := by
  refine ⟨rfl, rfl, rfl, ?_⟩
  decide

/-- C6 (amended): in a successfully constructed object, a name is in
raggedInputs exactly when some input entry with that name has
allow_ragged_batch present and true; with pairwise distinct input names
this is the per-entry equivalence of the original claim. -/
theorem raggedInputs_characterization (host : HostModel) (ao : Bool) (config : JsonVal)
    (inputs : List JsonVal) (m : BackendModel)
    (hc : host.configResult = .ok config)
    (hia : memberAsArrayD config "input" = .ok inputs)
    (h : backendModelInit host ao = .ok m) :
    ∀ x : String, x ∈ m.raggedInputs ↔
      ∃ io ∈ inputs, memberAsString io "name" = .ok x ∧
        findMember io "allow_ragged_batch" = some (.jbool true) := by
  obtain ⟨config', mbs, pin, descs, inputs', ro, hc', hm, hfs, hp, hbi, hbo, hia', hpi, hmEq⟩ :=
    init_ok_decomp host ao m h
  rw [hc] at hc'
  injection hc' with hc'
  subst hc'
  rw [hia] at hia'
  injection hia' with hia'
  subst hia'
  subst hmEq
  intro x
  have hmem := processInputs_mem_ragged ao inputs ro.1 ro.2 x [] [] hpi
  rw [show (mkBackendModel host mbs pin descs ro).raggedInputs = ro.1 from rfl, hmem]
  simp only [List.not_mem_nil, false_or]
  constructor
  · rintro ⟨io, hio, op, hpe⟩
    obtain ⟨hn, hr, _, _⟩ := parseInput_ok_elim ao io x true op hpe
    exact ⟨io, hio, hn, (raggedOf_true_iff io).mp hr⟩
  · rintro ⟨io, hio, hn, hr⟩
    obtain ⟨nm', rg', op', hpe⟩ := processInputs_all_ok ao inputs [] [] ro hpi io hio
    obtain ⟨hn', hr', _, _⟩ := parseInput_ok_elim ao io nm' rg' op' hpe
    have e1 : nm' = x := by
      unfold nameOf at hn'
      rw [hn'] at hn
      exact Except.ok.inj hn
    have e2 : rg' = true := by
      have hrT := (raggedOf_true_iff io).mpr hr
      rw [hr'] at hrT
      exact Except.ok.inj hrT
    rw [e1, e2] at hpe
    exact ⟨io, hio, op', hpe⟩

/-- C6 witness: an input IN0 with allow_ragged_batch true lands in
raggedInputs of the constructed object. -/
theorem raggedInputs_characterization_witness :
    "IN0" ∈ (getOk (backendModelInit hostW6 true)).raggedInputs := by
  have h := raggedInputs_characterization hostW6 true
    (.jobj [("input", .jarr [ioRag0])]) [ioRag0]
    (getOk (backendModelInit hostW6 true)) rfl rfl rfl
  exact (h "IN0").mpr ⟨ioRag0, List.mem_cons_self ioRag0 [], rfl, rfl⟩

/-- C1 counterexample: with two optional inputs IN0 and IN1 and
allow_optional false, construction fails with the error naming IN0, so
for the entry IN1 the error does not name that input. -/
theorem optional_error_names_first_cex :
    backendModelInit hostC1 false = .error (unsupportedOptionalInputErr "IN0") ∧
    findMember ioOptB "optional" = some (.jbool true) ∧
    ¬ strContains (unsupportedOptionalInputErr "IN0").msg "IN1" := by
  refine ⟨rfl, rfl, ?_⟩
  decide

/-- C1 (amended): with allow_optional true every well-formed optional
input's name is recorded in optionalInputs of a successfully constructed
object; with allow_optional false, construction fails with an error
naming the earliest input whose optional field is true (later optional
entries are reported only through that first name). -/
theorem optional_input_handling (host : HostModel) (config : JsonVal)
    (inputs : List JsonVal)
    (hc : host.configResult = .ok config)
    (hia : memberAsArrayD config "input" = .ok inputs) :
    (∀ m : BackendModel, backendModelInit host true = .ok m →
      ∀ io ∈ inputs, ∀ nm : String,
        memberAsString io "name" = .ok nm →
        findMember io "optional" = some (.jbool true) →
        nm ∈ m.optionalInputs) ∧
    (∀ (pre rest : List JsonVal) (io : JsonVal) (nm : String) (rg : Bool)
        (mbs : Int) (pin : Bool × Bool) (descs : List (List String)),
      inputs = pre ++ io :: rest →
      (∀ io' ∈ pre, ∃ t, parseInput false io' = .ok t) →
      memberAsString io "name" = .ok nm →
      raggedOf io = .ok rg →
      findMember io "optional" = some (.jbool true) →
      parseMaxBatchSize config = .ok mbs →
      host.artifactType = .filesystem →
      parsePinned config = .ok pin →
      host.batchInputsResult = .ok () →
      host.batchOutputsResult = .ok descs →
      backendModelInit host false = .error (unsupportedOptionalInputErr nm) ∧
        strContains (unsupportedOptionalInputErr nm).msg nm) := by
  constructor
  · intro m h io hio nm hname hopt
    obtain ⟨config', mbs, pin, descs, inputs', ro, hc', hm, hfs, hp, hbi, hbo, hia', hpi, hmEq⟩ :=
      init_ok_decomp host true m h
    rw [hc] at hc'
    injection hc' with hc'
    subst hc'
    rw [hia] at hia'
    injection hia' with hia'
    subst hia'
    subst hmEq
    obtain ⟨nm', rg', op', hpe⟩ := processInputs_all_ok true inputs [] [] ro hpi io hio
    obtain ⟨hn', _, ho2, _⟩ := parseInput_ok_elim true io nm' rg' op' hpe
    have e1 : nm' = nm := by
      unfold nameOf at hn'
      rw [hn'] at hname
      exact Except.ok.inj hname
    have e2 : op' = true := by
      have hoT := (optionalOf_true_iff io).mpr hopt
      rw [ho2] at hoT
      exact Except.ok.inj hoT
    rw [e1, e2] at hpe
    have hmem := processInputs_mem_optional true inputs ro.1 ro.2 nm [] [] hpi
    rw [show (mkBackendModel host mbs pin descs ro).optionalInputs = ro.2 from rfl]
    exact hmem.mpr (Or.inr ⟨io, hio, rg', hpe⟩)
  · intro pre rest io nm rg mbs pin descs hinputs hpre hname hr hopt hm hfs hp hbi hbo
    have ho : optionalOf io = .ok true := (optionalOf_true_iff io).mpr hopt
    have hioerr : parseInput false io = .error (unsupportedOptionalInputErr nm) :=
      parseInput_optional_error io nm rg (by unfold nameOf; exact hname) hr ho
    have hprocerr : processInputs false inputs [] [] =
        .error (unsupportedOptionalInputErr nm) := by
      rw [hinputs]
      exact processInputs_error_append false pre io rest _ hpre hioerr [] []
    refine ⟨init_error_inputs host false config mbs pin descs inputs _
      hc hm hfs hp hbi hbo hia hprocerr, ?_⟩
    exact strContains_sandwich "\x27optional\x27 is set to true for input \x27" nm
      "\x27 while the backend model doesn\x27t support optional input"

/-- C1 witness: with allow_optional true the optional input OPT0 is in
optionalInputs; with allow_optional false construction fails with the
error naming OPT0 (the first and only optional input). -/
theorem optional_input_handling_witness :
    "OPT0" ∈ (getOk (backendModelInit hostW1 true)).optionalInputs ∧
    backendModelInit hostW1 false = .error (unsupportedOptionalInputErr "OPT0") ∧
    strContains (unsupportedOptionalInputErr "OPT0").msg "OPT0" := by
  have h := optional_input_handling hostW1 (.jobj [("input", .jarr [ioOpt0])]) [ioOpt0]
    rfl rfl
  have h2 := h.2 [] [] ioOpt0 "OPT0" false 0 (false, false) [] rfl
    (fun io' h' => absurd h' (List.not_mem_nil io')) rfl rfl rfl rfl rfl rfl rfl rfl
  exact ⟨h.1 (getOk (backendModelInit hostW1 true)) rfl ioOpt0
    (List.mem_cons_self ioOpt0 []) "OPT0" rfl rfl, h2.1, h2.2⟩
